import Mathlib

/-!
# Maze Runner — verification of the grid maze model, collision, and raycasting

Shallow embedding of the maze-game source (three variants):

* `MAZE_LAYOUT9` and the collision check `checkCollision9` / per-frame physics
  `useFrameTick` embed the WebGL variant in `SimpleMazeGame.tsx`
  (`PlayerController.useFrame`, `checkCollision`).
* `MAZE_LAYOUT11`, the per-tick update `gameTick`, and the ray march
  `marchRay` / `renderColumn` embed the raycasting canvas variant
  (`SimpleMaze3D`: `gameLoop`, `render`).
* `movePlayer2` embeds the top-down tile variant (`Maze2D.movePlayer`).
* `carveCell` / `carveFold` / `generateMaze` embed the randomized recursive
  maze generator of the second WebGL variant (`MazeGame.generateMaze`).

Continuous quantities (positions, velocities, time deltas, trig values) are
modelled over `ℚ`.  The source evaluates `Math.cos` / `Math.sin` /
`direction.normalize()` at runtime; those transcendental values enter the
embedding as explicit rational parameters (`cosA`, `sinA`, `dirx`, `dirz`, …),
and every theorem below quantifies over them, so nothing is lost by the
parametrisation.  JavaScript `Math.floor` is `Int.floor`, and JavaScript
`Math.round` (round half towards positive infinity) is `jsRound`.
-/

/-- `MAZE_LAYOUT` of the WebGL variant (`SimpleMazeGame.tsx`): a 9×9 grid,
`1` = Wall, `0` = Floor, `2` = Goal. Transcribed row by row. -/
def MAZE_LAYOUT9 : List (List ℕ) :=
  [[1,1,1,1,1,1,1,1,1],
   [1,0,0,0,1,0,0,0,1],
   [1,0,1,0,1,0,1,0,1],
   [1,0,1,0,0,0,1,0,1],
   [1,0,1,1,1,1,1,0,1],
   [1,0,0,0,0,0,0,0,1],
   [1,0,1,0,1,0,1,1,1],
   [1,0,0,0,1,0,0,2,1],
   [1,1,1,1,1,1,1,1,1]]

/-- `MAZE_LAYOUT` shared by the raycasting canvas variant (`SimpleMaze3D`) and
the top-down tile variant (`Maze2D`): an 11×11 grid, same cell coding.
The two source files declare the identical literal. -/
def MAZE_LAYOUT11 : List (List ℕ) :=
  [[1,1,1,1,1,1,1,1,1,1,1],
   [1,0,0,0,1,0,0,0,0,0,1],
   [1,0,1,0,1,0,1,1,1,0,1],
   [1,0,1,0,0,0,1,0,0,0,1],
   [1,0,1,1,1,1,1,0,1,1,1],
   [1,0,0,0,0,0,0,0,1,0,1],
   [1,1,1,0,1,0,1,1,1,0,1],
   [1,0,0,0,1,0,0,0,0,0,1],
   [1,0,1,1,1,1,1,1,1,0,1],
   [1,0,0,0,0,0,0,0,0,2,1],
   [1,1,1,1,1,1,1,1,1,1,1]]

/-- Raw array access `layout[y][x]`.  Every call site in the source guards the
indices to be in bounds before reading, so the default value `0` used for the
(unreachable) out-of-range case is immaterial. -/
def cellAt (layout : List (List ℕ)) (x y : ℤ) : ℕ :=
  (layout.getD y.toNat []).getD x.toNat 0

/-- `MAZE_LAYOUT[z][x]` on the 9×9 grid. -/
def cell9 (x z : ℤ) : ℕ := cellAt MAZE_LAYOUT9 x z

/-- `MAZE_LAYOUT[mapY][mapX]` on the 11×11 grid. -/
def cell11 (x y : ℤ) : ℕ := cellAt MAZE_LAYOUT11 x y

/-- JavaScript `Math.round`: rounds to the nearest integer, halves towards
positive infinity. -/
def jsRound (q : ℚ) : ℤ := ⌊q + 0.5⌋

/-- Body of `checkCollision` of the WebGL variant after rounding: returns
`true` (blocked) when the rounded coordinates fall outside `[0, 9)`, otherwise
whether the cell is a Wall (`MAZE_LAYOUT[z][x] === 1`). -/
def blocked9 (x z : ℤ) : Bool :=
  if x < 0 ∨ (9:ℤ) ≤ x ∨ z < 0 ∨ (9:ℤ) ≤ z then true
  else cell9 x z == 1

/-- `checkCollision(position)` of the WebGL variant: round the position shifted
by `MAZE_SIZE/2 = 4.5` into grid coordinates and test `blocked9`. -/
def checkCollision9 (px pz : ℚ) : Bool :=
  blocked9 (jsRound (px + 9 / 2)) (jsRound (pz + 9 / 2))

/-- The per-column hit test of the raycasting renderer (`SimpleMaze3D.render`):
a sampled cell is a hit when it is out of bounds of the 11×11 grid or a Wall. -/
def rayHit11 (x y : ℤ) : Bool :=
  decide (x < 0) || decide ((11:ℤ) ≤ x) || decide (y < 0) || decide ((11:ℤ) ≤ y) ||
    (cell11 x y == 1)

/-- The acceptance test of `SimpleMaze3D.gameLoop`'s collision detection:
the tentative cell must be inside `[0, 11)` on both axes and not a Wall. -/
def accept11 (mX mY : ℤ) : Bool :=
  decide (0 ≤ mX) && decide (mX < 11) && decide (0 ≤ mY) && decide (mY < 11) &&
    !(cell11 mX mY == 1)

/-- Claim C6: for every coordinate pair outside `[0, size)` the grid lookups
used by collision detection (`blocked9`, negation of `accept11`) and by the
raycaster (`rayHit11`) report blocked/Wall rather than failing. -/
theorem oob_lookup_blocked (x z : ℤ)
    (hx : x < 0 ∨ (9:ℤ) ≤ x ∨ z < 0 ∨ (9:ℤ) ≤ z)
    (y w : ℤ) (hy : y < 0 ∨ (11:ℤ) ≤ y ∨ w < 0 ∨ (11:ℤ) ≤ w) :
    blocked9 x z = true ∧ rayHit11 y w = true ∧ accept11 y w = false := by
  refine ⟨?_, ?_, ?_⟩
  · simp only [blocked9, if_pos hx]
  · simp only [rayHit11, Bool.or_eq_true, decide_eq_true_eq]
    tauto
  · rw [Bool.eq_false_iff]
    intro hc
    simp only [accept11, Bool.and_eq_true, decide_eq_true_eq] at hc
    rcases hy with h | h | h | h <;> omega

/-- Witness for C6 at the concrete out-of-bounds coordinates `(-1, 3)` and
`(11, 0)`. -/
theorem oob_lookup_blocked_witness :
    blocked9 (-1) 3 = true ∧ rayHit11 11 0 = true ∧ accept11 11 0 = false :=
  oob_lookup_blocked (-1) 3 (Or.inl (by decide)) 11 0 (Or.inr (Or.inl (by decide)))

/-- Player physics state of the WebGL variant: continuous position and
velocity on the x/z plane (the camera's height never changes). -/
structure PV where
  px : ℚ
  pz : ℚ
  vx : ℚ
  vz : ℚ
deriving DecidableEq

/-- Velocity update of `PlayerController.useFrame`: exponential damping
(`v -= v * 10 * delta`) followed by acceleration (`v -= direction * 400 *
delta`) on each axis whose movement flags are held.  `dirx`/`dirz` are the
components of the normalised input direction computed by the source via
`direction.normalize()`. -/
def tickVel (dirx dirz δ : ℚ) (mf mb ml mr : Bool) (vx vz : ℚ) : ℚ × ℚ :=
  let vx1 := vx - vx * 10 * δ
  let vz1 := vz - vz * 10 * δ
  let vz2 := if mf || mb then vz1 - dirz * 400 * δ else vz1
  let vx2 := if ml || mr then vx1 - dirx * 400 * δ else vx1
  (vx2, vz2)

/-- One frame of `PlayerController.useFrame` (WebGL variant): damp and
accelerate the velocity, tentatively integrate the position by `v * delta`,
and copy the new position onto the camera only when `checkCollision` does not
block it.  The (possibly rejected) velocity is kept either way. -/
def useFrameTick (dirx dirz δ : ℚ) (mf mb ml mr : Bool) (s : PV) : PV :=
  let v := tickVel dirx dirz δ mf mb ml mr s.vx s.vz
  let nx := s.px + v.1 * δ
  let nz := s.pz + v.2 * δ
  if checkCollision9 nx nz then ⟨s.px, s.pz, v.1, v.2⟩ else ⟨nx, nz, v.1, v.2⟩

/-- Game state of the top-down tile variant `Maze2D`: integer player cell,
session flags, and the list of collected checkpoints. -/
structure M2S where
  pos : ℤ × ℤ
  started : Bool
  completed : Bool
  checkpoints : List (ℤ × ℤ)
deriving DecidableEq

/-- `CHECKPOINT_POSITIONS` of `Maze2D` (also `CHECKPOINTS` of `SimpleMaze3D`,
which uses the same three coordinates). -/
def CHECKPOINT_POSITIONS : List (ℤ × ℤ) := [(3, 3), (7, 5), (5, 7)]

/-- `movePlayer(dx, dy)` of `Maze2D`: ignore input before start or after
completion; reject a step that leaves `[0,11)×[0,11)` or lands on a Wall;
otherwise move, collect a not-yet-collected checkpoint on the target cell,
and set `completed` when the target cell is the Goal. -/
def movePlayer2 (d : ℤ × ℤ) (s : M2S) : M2S :=
  if !s.started || s.completed then s
  else
    let newX := s.pos.1 + d.1
    let newY := s.pos.2 + d.2
    if newX < 0 ∨ (11:ℤ) ≤ newX ∨ newY < 0 ∨ (11:ℤ) ≤ newY ∨ cell11 newX newY = 1 then s
    else
      let hit := CHECKPOINT_POSITIONS.any fun cp => decide (cp.1 = newX) && decide (cp.2 = newY)
      let already := s.checkpoints.any fun c => decide (c.1 = newX) && decide (c.2 = newY)
      { s with
        pos := (newX, newY),
        checkpoints :=
          if hit && !already then s.checkpoints ++ [(newX, newY)] else s.checkpoints,
        completed := if cell11 newX newY = 2 then true else s.completed }

/-- Claim C1: in both the WebGL physics tick and the tile-variant step, a
tentative move that lands in a Wall cell or out of bounds is rejected whole:
the position is exactly unchanged (no per-axis resolution), the damped and
accelerated velocity is retained for the next tick, and the tick is a total
function (no error is raised). -/
theorem reject_move_noop (dirx dirz δ : ℚ) (mf mb ml mr : Bool) (s : PV)
    (hcol : checkCollision9
      (s.px + (tickVel dirx dirz δ mf mb ml mr s.vx s.vz).1 * δ)
      (s.pz + (tickVel dirx dirz δ mf mb ml mr s.vx s.vz).2 * δ) = true)
    (d : ℤ × ℤ) (t : M2S)
    (hrej : t.pos.1 + d.1 < 0 ∨ (11:ℤ) ≤ t.pos.1 + d.1 ∨ t.pos.2 + d.2 < 0 ∨
      (11:ℤ) ≤ t.pos.2 + d.2 ∨ cell11 (t.pos.1 + d.1) (t.pos.2 + d.2) = 1) :
    useFrameTick dirx dirz δ mf mb ml mr s =
      ⟨s.px, s.pz, (tickVel dirx dirz δ mf mb ml mr s.vx s.vz).1,
        (tickVel dirx dirz δ mf mb ml mr s.vx s.vz).2⟩ ∧
    movePlayer2 d t = t := by
  constructor
  · simp only [useFrameTick, hcol, if_true]
  · unfold movePlayer2
    by_cases hg : (!t.started || t.completed) = true
    · simp [hg]
    · simp only [Bool.not_eq_true] at hg
      simp [hg, hrej]

/-- Witness for C1: a frame at rest with no input from the position `(-2.5,
-2.5)`, whose grid cell `(2,2)` is a Wall, is rejected and leaves the state
unchanged; in the tile variant a step from `(1,1)` into the wall at `(0,1)` is
a no-op. -/
theorem reject_move_noop_witness :
    useFrameTick 0 0 0 false false false false ⟨-2.5, -2.5, 0, 0⟩ =
      ⟨-2.5, -2.5, 0, 0⟩ ∧
    movePlayer2 (-1, 0) ⟨(1, 1), true, false, []⟩ = ⟨(1, 1), true, false, []⟩ := by
  have hv : tickVel 0 0 0 false false false false (PV.mk (-2.5) (-2.5) 0 0).vx
      (PV.mk (-2.5) (-2.5) 0 0).vz = (0, 0) := by
    norm_num [tickVel]
  have hround : jsRound ((-2.5 : ℚ) + 0 * 0 + 9 / 2) = 2 := by
    unfold jsRound; norm_num
  have hcol : checkCollision9
      ((PV.mk (-2.5) (-2.5) 0 0).px +
        (tickVel 0 0 0 false false false false (PV.mk (-2.5) (-2.5) 0 0).vx
          (PV.mk (-2.5) (-2.5) 0 0).vz).1 * 0)
      ((PV.mk (-2.5) (-2.5) 0 0).pz +
        (tickVel 0 0 0 false false false false (PV.mk (-2.5) (-2.5) 0 0).vx
          (PV.mk (-2.5) (-2.5) 0 0).vz).2 * 0) = true := by
    rw [hv]
    show checkCollision9 ((-2.5 : ℚ) + 0 * 0) ((-2.5 : ℚ) + 0 * 0) = true
    unfold checkCollision9
    rw [hround]
    decide
  have h := reject_move_noop 0 0 0 false false false false ⟨-2.5, -2.5, 0, 0⟩
    hcol (-1, 0) ⟨(1, 1), true, false, []⟩ (by decide)
  refine ⟨?_, h.2⟩
  rw [h.1, hv]

/-- Player of the raycasting canvas variant `SimpleMaze3D`: continuous
position and facing angle (radians). -/
structure RPlayer where
  x : ℚ
  y : ℚ
  angle : ℚ
deriving DecidableEq

/-- Game state of `SimpleMaze3D` (the fields the per-tick update touches). -/
structure RState where
  player : RPlayer
  checkpoints : List (ℤ × ℤ)
  gameStarted : Bool
  gameCompleted : Bool
deriving DecidableEq

/-- Key flags of `SimpleMaze3D` (`keysRef`): WASD plus the four arrows. -/
structure RKeys where
  w : Bool
  s : Bool
  a : Bool
  d : Bool
  up : Bool
  down : Bool
  left : Bool
  right : Bool
deriving DecidableEq

/-- Tentative position of a `SimpleMaze3D.gameLoop` tick: walk by
`cos/sin(angle) * MOVE_SPEED * 0.016` forward and/or backward.  The movement
block reads the angle before the turn keys modify it, so `cosA`/`sinA` are the
cosine and sine of the player's angle at the start of the tick. -/
def tentative11 (cosA sinA : ℚ) (k : RKeys) (st : RState) : ℚ × ℚ :=
  let moveX : ℚ :=
    (if k.w || k.up then cosA * 3 * 0.016 else 0) -
    (if k.s || k.down then cosA * 3 * 0.016 else 0)
  let moveY : ℚ :=
    (if k.w || k.up then sinA * 3 * 0.016 else 0) -
    (if k.s || k.down then sinA * 3 * 0.016 else 0)
  (st.player.x + moveX, st.player.y + moveY)

/-- Angle update of a `SimpleMaze3D.gameLoop` tick: `a`/`ArrowLeft` subtract
and `d`/`ArrowRight` add `TURN_SPEED * 0.016`, in source order. -/
def turnAngle (k : RKeys) (angle : ℚ) : ℚ :=
  let a1 := if k.a then angle - 2 * 0.016 else angle
  let a2 := if k.d then a1 + 2 * 0.016 else a1
  let a3 := if k.left then a2 - 2 * 0.016 else a2
  if k.right then a3 + 2 * 0.016 else a3

/-- `CHECKPOINTS.find(...)` of `SimpleMaze3D.gameLoop`: the first checkpoint
within Chebyshev distance `0.5` of the accepted position that is not yet in
the collected list. -/
def cpHit (newX newY : ℚ) (collected : List (ℤ × ℤ)) : Option (ℤ × ℤ) :=
  CHECKPOINT_POSITIONS.find? fun cp =>
    decide (|(cp.1 : ℚ) - newX| < 0.5) && decide (|(cp.2 : ℚ) - newY| < 0.5) &&
      !(collected.any fun c => decide (c.1 = cp.1) && decide (c.2 = cp.2))

/-- One tick of `SimpleMaze3D.gameLoop`'s state update: bail out before start
or after completion; apply turning unconditionally; accept the tentative move
only when its `Math.floor` cell is in bounds and not a Wall; on acceptance
collect at most one checkpoint (early return) or else complete on the Goal
cell; on rejection keep the old position but the new angle. -/
def gameTick (cosA sinA : ℚ) (k : RKeys) (st : RState) : RState :=
  if !st.gameStarted || st.gameCompleted then st
  else
    let n := tentative11 cosA sinA k st
    let a4 := turnAngle k st.player.angle
    let mX := ⌊n.1⌋
    let mY := ⌊n.2⌋
    if accept11 mX mY then
      match cpHit n.1 n.2 st.checkpoints with
      | some cp =>
        { st with player := ⟨n.1, n.2, a4⟩, checkpoints := st.checkpoints ++ [cp] }
      | none =>
        if cell11 mX mY = 2 then
          { st with player := ⟨n.1, n.2, a4⟩, gameCompleted := true }
        else
          { st with player := ⟨n.1, n.2, a4⟩ }
    else
      { st with player := ⟨st.player.x, st.player.y, a4⟩ }

/-- A frame of the WebGL variant as the session sees it.  The component's
`useFrame` callback never reads the session's `gameCompleted` flag (the
`<Canvas>` stays mounted under the victory overlay and `onGoalReached` keeps
firing), so the physics tick runs unconditionally; the `completed` argument
records the session flag only to make that absence explicit. -/
def simpleFrame (completed : Bool) (dirx dirz δ : ℚ) (mf mb ml mr : Bool)
    (s : PV) : PV :=
  useFrameTick dirx dirz δ mf mb ml mr s

/-- Counterexample to claim C2: in the WebGL variant a frame taken while the
session is already completed still moves the player, because the frame
callback has no completed-guard.  From the spawn `(-3.5, -3.5)` with residual
velocity `6/5` and `delta = 1/60`, the x-position changes although
`completed = true`. -/
theorem completed_tick_moves_player :
    (simpleFrame true 0 0 (1/60) false false false false
      ⟨-3.5, -3.5, 6/5, 0⟩).px ≠ (-3.5 : ℚ) := by
  have hv : tickVel 0 0 (1/60) false false false false
      (PV.mk (-3.5) (-3.5) (6/5) 0).vx (PV.mk (-3.5) (-3.5) (6/5) 0).vz = (1, 0) := by
    norm_num [tickVel]
  have hr1 : jsRound ((-3.5 : ℚ) + 1 * (1/60) + 9 / 2) = 1 := by
    unfold jsRound; norm_num
  have hr2 : jsRound ((-3.5 : ℚ) + 0 * (1/60) + 9 / 2) = 1 := by
    unfold jsRound; norm_num
  have hcol : checkCollision9 ((-3.5 : ℚ) + 1 * (1/60)) ((-3.5 : ℚ) + 0 * (1/60)) = false := by
    unfold checkCollision9
    rw [hr1, hr2]
    decide
  unfold simpleFrame useFrameTick
  rw [hv]
  simp only [hcol, Bool.false_eq_true, if_false]
  norm_num

/-- Claim C2 (amended): in the top-down tile variant and in the raycasting
canvas variant, any tick taken while the completed flag is `true` returns the
state entirely unchanged — position, checkpoints and flags — so physics and
update processing halt and no further side effects fire until the session is
recreated on restart.  (The WebGL variant's frame callback lacks this guard;
see the counterexample above.)  Together with the fact that a tick can
only ever set `completed` from `false` to `true`, the flag is set at most once
per session. -/
theorem completed_halts_updates (d : ℤ × ℤ) (s : M2S) (hs : s.completed = true)
    (cosA sinA : ℚ) (k : RKeys) (st : RState) (hst : st.gameCompleted = true) :
    movePlayer2 d s = s ∧ gameTick cosA sinA k st = st := by
  constructor
  · unfold movePlayer2
    simp [hs]
  · unfold gameTick
    simp [hst]

/-- Witness for C2 (amended) in a concrete completed state of each variant. -/
theorem completed_halts_updates_witness :
    movePlayer2 (1, 0) ⟨(1, 1), true, true, []⟩ = ⟨(1, 1), true, true, []⟩ ∧
    gameTick 1 0 ⟨true, false, false, false, false, false, false, false⟩
      ⟨⟨1.5, 1.5, 0⟩, [], true, true⟩ = ⟨⟨1.5, 1.5, 0⟩, [], true, true⟩ :=
  completed_halts_updates (1, 0) ⟨(1, 1), true, true, []⟩ rfl 1 0
    ⟨true, false, false, false, false, false, false, false⟩
    ⟨⟨1.5, 1.5, 0⟩, [], true, true⟩ rfl

/-- Claim C3: checkpoint collection is idempotent.  In the raycasting variant,
a tick whose (tentative) position comes within the pickup radius `0.5` of a
checkpoint that is already in the collected list leaves the collected list
unchanged; in the tile variant, stepping again onto an already-collected
checkpoint cell likewise leaves it unchanged. -/
theorem checkpoint_idempotent (cosA sinA : ℚ) (k : RKeys) (st : RState)
    (cp : ℤ × ℤ) (hmem : cp ∈ CHECKPOINT_POSITIONS) (hcol : cp ∈ st.checkpoints)
    (hnx : |(cp.1 : ℚ) - (tentative11 cosA sinA k st).1| < 0.5)
    (hny : |(cp.2 : ℚ) - (tentative11 cosA sinA k st).2| < 0.5)
    (d : ℤ × ℤ) (t : M2S)
    (htcp : (t.pos.1 + d.1, t.pos.2 + d.2) ∈ t.checkpoints) :
    (gameTick cosA sinA k st).checkpoints = st.checkpoints ∧
    (movePlayer2 d t).checkpoints = t.checkpoints := by
  constructor
  · have hnone : cpHit (tentative11 cosA sinA k st).1 (tentative11 cosA sinA k st).2
        st.checkpoints = none := by
      unfold cpHit
      rw [List.find?_eq_none]
      intro cp' hcp'
      by_cases hsame : cp' = cp
      · subst hsame
        have hany : (st.checkpoints.any fun c =>
            decide (c.1 = cp'.1) && decide (c.2 = cp'.2)) = true := by
          rw [List.any_eq_true]
          exact ⟨cp', hcol, by simp⟩
        simp [hany]
      · intro hpred
        simp only [Bool.and_eq_true, decide_eq_true_eq] at hpred
        obtain ⟨⟨hx, -⟩, -⟩ := hpred
        rw [abs_lt] at hx
        have h1 := abs_lt.mp hnx
        fin_cases hmem <;> fin_cases hcp' <;>
          first
            | exact hsame rfl
            | (push_cast at hx h1; linarith [hx.1, hx.2, h1.1, h1.2])
    unfold gameTick
    by_cases hg : (!st.gameStarted || st.gameCompleted) = true
    · simp [hg]
    · by_cases hacc : accept11 ⌊(tentative11 cosA sinA k st).1⌋
          ⌊(tentative11 cosA sinA k st).2⌋ = true
      · by_cases hcell : cell11 ⌊(tentative11 cosA sinA k st).1⌋
            ⌊(tentative11 cosA sinA k st).2⌋ = 2
        · simp [hg, hacc, hnone, hcell]
        · simp [hg, hacc, hnone, hcell]
      · simp [hg, hacc]
  · unfold movePlayer2
    by_cases hg : (!t.started || t.completed) = true
    · simp [hg]
    · by_cases hrej : t.pos.1 + d.1 < 0 ∨ (11:ℤ) ≤ t.pos.1 + d.1 ∨
          t.pos.2 + d.2 < 0 ∨ (11:ℤ) ≤ t.pos.2 + d.2 ∨
          cell11 (t.pos.1 + d.1) (t.pos.2 + d.2) = 1
      · simp [hg, hrej]
      · have halready : (t.checkpoints.any fun c =>
            decide (c.1 = t.pos.1 + d.1) && decide (c.2 = t.pos.2 + d.2)) = true := by
          rw [List.any_eq_true]
          exact ⟨(t.pos.1 + d.1, t.pos.2 + d.2), htcp, by simp⟩
        simp [hg, hrej, halready]

/-- Witness for C3: in the raycasting variant the player sits on the collected
checkpoint `(3,3)` and does not move; in the tile variant the player steps
from `(3,2)` onto the collected checkpoint cell `(3,3)`.  Both collected lists
are unchanged. -/
theorem checkpoint_idempotent_witness :
    (gameTick 1 0 ⟨false, false, false, false, false, false, false, false⟩
      ⟨⟨3.2, 3.2, 0⟩, [(3, 3)], true, false⟩).checkpoints = [(3, 3)] ∧
    (movePlayer2 (0, 1) ⟨(3, 2), true, false, [(3, 3)]⟩).checkpoints = [(3, 3)] := by
  have ht : tentative11 1 0
      ⟨false, false, false, false, false, false, false, false⟩
      ⟨⟨3.2, 3.2, 0⟩, [(3, 3)], true, false⟩ = (3.2, 3.2) := by
    norm_num [tentative11]
  have h := checkpoint_idempotent 1 0
    ⟨false, false, false, false, false, false, false, false⟩
    ⟨⟨3.2, 3.2, 0⟩, [(3, 3)], true, false⟩ (3, 3) (by decide) (by simp)
    (by rw [ht]; norm_num [abs_lt]) (by rw [ht]; norm_num [abs_lt])
    (0, 1) ⟨(3, 2), true, false, [(3, 3)]⟩ (by simp)
  exact h

/-- In the 11×11 layout the Goal kind appears only at `(9, 9)` (checked over
all in-bounds cells). -/
lemma goal11_unique : ∀ x : ℕ, x < 11 → ∀ y : ℕ, y < 11 →
    cellAt MAZE_LAYOUT11 x y = 2 → x = 9 ∧ y = 9 := by decide

/-- ℤ-level version of `goal11_unique` for the coordinates produced by the
collision check. -/
lemma goal11_unique_int (x y : ℤ) (hx0 : 0 ≤ x) (hx1 : x < 11)
    (hy0 : 0 ≤ y) (hy1 : y < 11) (h2 : cell11 x y = 2) : x = 9 ∧ y = 9 := by
  have hx := goal11_unique x.toNat (by omega) y.toNat (by omega)
  rw [show ((x.toNat : ℤ)) = x by omega, show ((y.toNat : ℤ)) = y by omega] at hx
  have := hx h2
  omega

/-- Claim C7: a tick whose tentative move is accepted onto the Goal cell sets
the completed flag on that very tick, in both the raycasting variant (where a
checkpoint pickup could in principle pre-empt the goal branch, but no
checkpoint lies within the pickup radius of the Goal cell) and the tile
variant. -/
theorem goal_arrival_completes (cosA sinA : ℚ) (k : RKeys) (st : RState)
    (hs : st.gameStarted = true) (hc : st.gameCompleted = false)
    (hacc : accept11 ⌊(tentative11 cosA sinA k st).1⌋
      ⌊(tentative11 cosA sinA k st).2⌋ = true)
    (hgoal : cell11 ⌊(tentative11 cosA sinA k st).1⌋
      ⌊(tentative11 cosA sinA k st).2⌋ = 2)
    (d : ℤ × ℤ) (t : M2S) (hts : t.started = true) (htc : t.completed = false)
    (htacc : ¬(t.pos.1 + d.1 < 0 ∨ (11:ℤ) ≤ t.pos.1 + d.1 ∨ t.pos.2 + d.2 < 0 ∨
      (11:ℤ) ≤ t.pos.2 + d.2 ∨ cell11 (t.pos.1 + d.1) (t.pos.2 + d.2) = 1))
    (htgoal : cell11 (t.pos.1 + d.1) (t.pos.2 + d.2) = 2) :
    (gameTick cosA sinA k st).gameCompleted = true ∧
    (movePlayer2 d t).completed = true := by
  constructor
  · have hb : (0:ℤ) ≤ ⌊(tentative11 cosA sinA k st).1⌋ ∧
        ⌊(tentative11 cosA sinA k st).1⌋ < 11 ∧
        (0:ℤ) ≤ ⌊(tentative11 cosA sinA k st).2⌋ ∧
        ⌊(tentative11 cosA sinA k st).2⌋ < 11 := by
      have := hacc
      simp only [accept11, Bool.and_eq_true, decide_eq_true_eq] at this
      exact ⟨this.1.1.1.1, this.1.1.1.2, this.1.1.2, this.1.2⟩
    have h99 := goal11_unique_int _ _ hb.1 hb.2.1 hb.2.2.1 hb.2.2.2 hgoal
    have hx9 : (9 : ℚ) ≤ (tentative11 cosA sinA k st).1 := by
      have := Int.floor_le (tentative11 cosA sinA k st).1
      rw [h99.1] at this
      exact_mod_cast this
    have hnone : cpHit (tentative11 cosA sinA k st).1 (tentative11 cosA sinA k st).2
        st.checkpoints = none := by
      unfold cpHit
      rw [List.find?_eq_none]
      intro cp' hcp'
      intro hpred
      simp only [Bool.and_eq_true, decide_eq_true_eq] at hpred
      obtain ⟨⟨hx, -⟩, -⟩ := hpred
      rw [abs_lt] at hx
      fin_cases hcp' <;> (push_cast at hx; linarith [hx.1, hx.2])
    unfold gameTick
    simp [hs, hc, hacc, hnone, hgoal]
  · unfold movePlayer2
    have hb4 : ¬(t.pos.1 + d.1 < 0 ∨ (11:ℤ) ≤ t.pos.1 + d.1 ∨ t.pos.2 + d.2 < 0 ∨
        (11:ℤ) ≤ t.pos.2 + d.2) := by
      intro hcon
      exact htacc (by tauto)
    simp [hts, htc, htgoal, hb4]

/-- Witness for C7: in the raycasting variant a stationary tick at
`(9.5, 9.5)` — the Goal cell `(9,9)` — completes the session; in the tile
variant stepping from `(8,9)` onto the Goal cell `(9,9)` completes it. -/
theorem goal_arrival_completes_witness :
    (gameTick 1 0 ⟨false, false, false, false, false, false, false, false⟩
      ⟨⟨9.5, 9.5, 0⟩, [], true, false⟩).gameCompleted = true ∧
    (movePlayer2 (1, 0) ⟨(8, 9), true, false, []⟩).completed = true := by
  have ht : tentative11 1 0
      ⟨false, false, false, false, false, false, false, false⟩
      ⟨⟨9.5, 9.5, 0⟩, [], true, false⟩ = (9.5, 9.5) := by
    norm_num [tentative11]
  have hf : (⌊(9.5 : ℚ)⌋ : ℤ) = 9 := by norm_num
  exact goal_arrival_completes 1 0
    ⟨false, false, false, false, false, false, false, false⟩
    ⟨⟨9.5, 9.5, 0⟩, [], true, false⟩ rfl rfl
    (by rw [ht]; simp only [hf]; decide)
    (by rw [ht]; simp only [hf]; decide)
    (1, 0) ⟨(8, 9), true, false, []⟩ rfl rfl (by decide) (by decide)

/-- Claim C10: when the raycasting variant rejects a tentative move, only the
positional part of the tick is discarded — the angle still receives the full
turn-key update, and checkpoints and flags are untouched, so turning is never
blocked by walls. -/
theorem rejected_move_still_turns (cosA sinA : ℚ) (k : RKeys) (st : RState)
    (hs : st.gameStarted = true) (hc : st.gameCompleted = false)
    (hrej : accept11 ⌊(tentative11 cosA sinA k st).1⌋
      ⌊(tentative11 cosA sinA k st).2⌋ = false) :
    gameTick cosA sinA k st =
      { st with player := ⟨st.player.x, st.player.y, turnAngle k st.player.angle⟩ } := by
  unfold gameTick
  simp [hs, hc, hrej]

/-- Witness for C10: from `(1.01, 1.5)` facing the wall at `(0, 1)`
(`cosA = -1`), holding forward and the `a` turn key, the move is rejected but
the angle still turns to `-0.032`. -/
theorem rejected_move_still_turns_witness :
    gameTick (-1) 0 ⟨true, false, true, false, false, false, false, false⟩
      ⟨⟨1.01, 1.5, 0⟩, [], true, false⟩ =
      ⟨⟨1.01, 1.5, -0.032⟩, [], true, false⟩ := by
  have ht : tentative11 (-1) 0
      ⟨true, false, true, false, false, false, false, false⟩
      ⟨⟨1.01, 1.5, 0⟩, [], true, false⟩ = (481/500, 3/2) := by
    norm_num [tentative11]
  have hf1 : (⌊(481/500 : ℚ)⌋ : ℤ) = 0 := by
    rw [Int.floor_eq_iff] <;> norm_num
  have hf2 : (⌊(3/2 : ℚ)⌋ : ℤ) = 1 := by norm_num
  have h := rejected_move_still_turns (-1) 0
    ⟨true, false, true, false, false, false, false, false⟩
    ⟨⟨1.01, 1.5, 0⟩, [], true, false⟩ rfl rfl
    (by rw [ht]; simp only [hf1, hf2]; decide)
  rw [h]
  have hturn : turnAngle ⟨true, false, true, false, false, false, false, false⟩ 0
      = -0.032 := by
    norm_num [turnAngle]
  simp [hturn]

/-- The per-column ray march of `SimpleMaze3D.render`: starting from distance
`0`, step the distance by `0.02` until the sampled cell (player position plus
`cos/sin` of the ray angle times the distance, floored) is a hit, or the
distance reaches the maximum range `20`.  `cosR`/`sinR` are the cosine and
sine of the ray's angle.  The `while` loop is modelled with a fuel parameter;
`marchRay_stable` below shows any fuel of at least `1000` steps gives the
loop's unique fixpoint, which is how the unbounded source loop terminates. -/
def marchRay (cosR sinR px py : ℚ) : ℕ → ℚ → ℚ
  | 0, d => d
  | fuel + 1, d =>
    if d < 20 then
      if rayHit11 ⌊px + cosR * d⌋ ⌊py + sinR * d⌋ then d
      else marchRay cosR sinR px py fuel (d + 0.02)
    else d

/-- The ray march stabilises: any two fuels large enough to cover the
remaining `(20 - d) / 0.02` steps produce the same distance. -/
lemma marchRay_stable (cosR sinR px py : ℚ) :
    ∀ f₁ : ℕ, ∀ f₂ : ℕ, ∀ d : ℚ,
      (1000 : ℚ) ≤ d * 50 + f₁ → (1000 : ℚ) ≤ d * 50 + f₂ →
      marchRay cosR sinR px py f₁ d = marchRay cosR sinR px py f₂ d := by
  intro f₁
  induction f₁ with
  | zero =>
    intro f₂ d h₁ h₂
    have hd : ¬(d < 20) := by push_cast at h₁; intro h; linarith
    cases f₂ with
    | zero => rfl
    | succ m => simp [marchRay, hd]
  | succ n ih =>
    intro f₂ d h₁ h₂
    by_cases hd : d < 20
    · cases f₂ with
      | zero =>
        exfalso
        push_cast at h₂
        linarith
      | succ m =>
        simp only [marchRay, hd, if_true]
        by_cases hhit : rayHit11 ⌊px + cosR * d⌋ ⌊py + sinR * d⌋ = true
        · simp [hhit]
        · simp only [Bool.not_eq_true] at hhit
          simp only [hhit, Bool.false_eq_true, if_false]
          apply ih
          · push_cast at h₁ ⊢; linarith
          · push_cast at h₂ ⊢; linarith
    · cases f₂ with
      | zero => simp [marchRay, hd]
      | succ m => simp [marchRay, hd]

/-- The values the renderer derives for one screen column: raw hit distance,
fisheye-corrected distance, projected wall-slice height, and the
fog-attenuated RGB components. -/
structure ColumnData where
  distance : ℚ
  corrected : ℚ
  wallHeight : ℚ
  red : ℤ
  green : ℤ
  blue : ℤ
deriving DecidableEq

/-- One column of `SimpleMaze3D.render`: march the ray, correct the distance
by `cos` of the angle offset from the facing direction (`cosOff`), project the
wall height `(WALL_HEIGHT / corrected) * (height / 4)` with `WALL_HEIGHT = 2`,
and attenuate the base color `(139, 115, 85)` by
`max(0.2, 1 - distance / 10)`. -/
def renderColumn (fuel : ℕ) (px py cosR sinR cosOff height : ℚ) : ColumnData :=
  let distance := marchRay cosR sinR px py fuel 0
  let corrected := distance * cosOff
  let wallHeight := 2 / corrected * (height / 4)
  let brightness := max 0.2 (1 - distance / 10)
  ⟨distance, corrected, wallHeight,
    ⌊139 * brightness⌋, ⌊115 * brightness⌋, ⌊85 * brightness⌋⟩

/-- The full per-frame ray-march pass of `SimpleMaze3D.render` over
`rayCount = width / 2` columns.  For column `i` the source uses
`rayAngle = angle - π/6 + (i / rayCount) * (π/3)`; `trig i` packages
`(cos rayAngle, sin rayAngle, cos (rayAngle - angle))`, the three
transcendental values the column computation consumes. -/
def renderPass (fuel : ℕ) (px py : ℚ) (trig : ℕ → ℚ × ℚ × ℚ) (rayCount : ℕ)
    (height : ℚ) : List ColumnData :=
  (List.range rayCount).map fun i =>
    renderColumn fuel px py (trig i).1 (trig i).2.1 (trig i).2.2 height

/-- Claim C9: the raycasting render pass is deterministic.  For a fixed player
position, fixed per-column trig values (hence fixed player angle), the fixed
maze grid and fixed canvas dimensions, two executions of the per-column ray
march — modelled as two runs with any sufficient fuel — compute identical
per-column hit distances, corrected distances, wall-slice heights and
fog-attenuated colors. -/
theorem raycast_deterministic (f₁ f₂ : ℕ) (h₁ : 1000 ≤ f₁) (h₂ : 1000 ≤ f₂)
    (px py : ℚ) (trig : ℕ → ℚ × ℚ × ℚ) (rayCount : ℕ) (height : ℚ) :
    renderPass f₁ px py trig rayCount height =
      renderPass f₂ px py trig rayCount height := by
  unfold renderPass
  apply List.map_congr_left
  intro i _
  unfold renderColumn
  have hm : marchRay (trig i).1 (trig i).2.1 px py f₁ 0 =
      marchRay (trig i).1 (trig i).2.1 px py f₂ 0 := by
    apply marchRay_stable
    · push_cast
      simp only [zero_mul, zero_add]
      exact_mod_cast h₁
    · push_cast
      simp only [zero_mul, zero_add]
      exact_mod_cast h₂
  rw [hm]

/-- Witness for C9: two passes with fuels `1000` and `1001` agree on a
one-column frame from `(1.5, 1.5)` looking along the x-axis. -/
theorem raycast_deterministic_witness :
    renderPass 1000 1.5 1.5 (fun _ => (1, 0, 1)) 1 100 =
      renderPass 1001 1.5 1.5 (fun _ => (1, 0, 1)) 1 100 :=
  raycast_deterministic 1000 1001 (by decide) (by decide)
    1.5 1.5 (fun _ => (1, 0, 1)) 1 100

/-- A mutable maze grid, read as `g x y` for the source access `maze[y][x]`. -/
abbrev Grid := ℤ → ℤ → ℕ

/-- `maze[y][x] = v`. -/
def setCell (g : Grid) (x y : ℤ) (v : ℕ) : Grid :=
  fun a b => if a = x ∧ b = y then v else g a b

/-- The direction list `[[0,-2],[2,0],[0,2],[-2,0]]` of `generateMaze.carve`
before the random shuffle. -/
def carveDirs : List (ℤ × ℤ) := [(0, -2), (2, 0), (0, 2), (-2, 0)]

/-- The body of `carve(x, y)` after its initial `maze[y][x] = 0`: walk the
shuffled direction list; for each direction whose two-step target lies
strictly inside the border and is still a Wall, clear the connecting cell
`(x + dx/2, y + dy/2)`, then run the recursive carve of the target.  The
callee's leading `maze[ny][nx] = 0` is hoisted to the call site (the second
`setCell` below), which leaves the mutation sequence unchanged; `rec` is the
rest of the recursive carve. -/
def carveFold (size : ℕ) (rec : ℤ → ℤ → Grid → Grid) :
    ℤ → ℤ → List (ℤ × ℤ) → Grid → Grid
  | _, _, [], g => g
  | x, y, d :: rest, g =>
    if 0 < x + d.1 ∧ x + d.1 < (size : ℤ) - 1 ∧ 0 < y + d.2 ∧ y + d.2 < (size : ℤ) - 1 ∧
        g (x + d.1) (y + d.2) = 1 then
      carveFold size rec x y rest
        (rec (x + d.1) (y + d.2)
          (setCell (setCell g (x + d.1 / 2) (y + d.2 / 2) 0) (x + d.1) (y + d.2) 0))
    else
      carveFold size rec x y rest g

/-- The recursive carve of `generateMaze`, with the cell clearing hoisted to
call sites (see `carveFold`) and a fuel bound on the recursion depth.
`σ p` is the shuffled direction list the call on cell `p` observes: the source
shuffles with `sort(() => Math.random() - 0.5)`, which always yields some
permutation of `carveDirs`, and since the recursion enters each cell at most
once, quantifying over one permutation per cell covers every possible run.
`carveCell_stable` below shows any fuel above the wall count computes the
recursion's unique result, which is how the unbounded source recursion
terminates. -/
def carveCell (σ : ℤ × ℤ → List (ℤ × ℤ)) (size : ℕ) : ℕ → ℤ → ℤ → Grid → Grid
  | 0, _, _, g => g
  | fuel + 1, x, y, g => carveFold size (carveCell σ size fuel) x y (σ (x, y)) g

/-- `generateMaze(size)`: start from an all-Wall grid, carve recursively from
`(1, 1)` (whose leading `maze[1][1] = 0` is the first `setCell`), then force
the start `(1, 1)` and end `(size-2, size-2)` clear. -/
def generateMaze (σ : ℤ × ℤ → List (ℤ × ℤ)) (size fuel : ℕ) : Grid :=
  let g0 : Grid := fun _ _ => 1
  let g1 := carveCell σ size fuel 1 1 (setCell g0 1 1 0)
  setCell (setCell g1 1 1 0) ((size : ℤ) - 2) ((size : ℤ) - 2) 0

/-- `g'` arises from `g` by clearing cells to `0`: every cell either kept its
value or is now `0`.  The carve procedure only ever writes `0`. -/
def ClearedFrom (g g' : Grid) : Prop := ∀ a b : ℤ, g' a b = g a b ∨ g' a b = 0

lemma clearedFrom_refl (g : Grid) : ClearedFrom g g := fun _ _ => Or.inl rfl

lemma clearedFrom_trans {g g' g'' : Grid} (h1 : ClearedFrom g g')
    (h2 : ClearedFrom g' g'') : ClearedFrom g g'' := by
  intro a b
  rcases h2 a b with h | h
  · rw [h]; exact h1 a b
  · exact Or.inr h

lemma clearedFrom_setCell (g : Grid) (x y : ℤ) : ClearedFrom g (setCell g x y 0) := by
  intro a b
  unfold setCell
  split_ifs with h
  · exact Or.inr rfl
  · exact Or.inl rfl

lemma ClearedFrom.keep_zero {g g' : Grid} (h : ClearedFrom g g') {a b : ℤ}
    (h0 : g a b = 0) : g' a b = 0 := by
  rcases h a b with h' | h'
  · rw [h', h0]
  · exact h'

lemma ClearedFrom.keep_ne_one {g g' : Grid} (h : ClearedFrom g g') {a b : ℤ}
    (h1 : g a b ≠ 1) : g' a b ≠ 1 := by
  rcases h a b with h' | h'
  · rw [h']; exact h1
  · rw [h']; exact zero_ne_one

lemma carveFold_clearedFrom (size : ℕ) (rec : ℤ → ℤ → Grid → Grid)
    (Hrec : ∀ x y g, ClearedFrom g (rec x y g)) :
    ∀ (dirs : List (ℤ × ℤ)) (x y : ℤ) (g : Grid),
      ClearedFrom g (carveFold size rec x y dirs g) := by
  intro dirs
  induction dirs with
  | nil => intro x y g; exact clearedFrom_refl g
  | cons d rest ih =>
    intro x y g
    rw [carveFold]
    split_ifs with hguard
    · exact clearedFrom_trans
        (clearedFrom_trans
          (clearedFrom_trans (clearedFrom_setCell _ _ _) (clearedFrom_setCell _ _ _))
          (Hrec _ _ _))
        (ih x y _)
    · exact ih x y g

lemma carveCell_clearedFrom (σ : ℤ × ℤ → List (ℤ × ℤ)) (size : ℕ) :
    ∀ (fuel : ℕ) (x y : ℤ) (g : Grid), ClearedFrom g (carveCell σ size fuel x y g) := by
  intro fuel
  induction fuel with
  | zero => intro x y g; exact clearedFrom_refl g
  | succ n ih =>
    intro x y g
    exact carveFold_clearedFrom size _ ih (σ (x, y)) x y g

/-- A cell strictly inside the border, matching the carve guard
`nx > 0 && nx < size - 1 && ny > 0 && ny < size - 1`. -/
def interiorCell (size : ℕ) (x y : ℤ) : Prop :=
  0 < x ∧ x < (size : ℤ) - 1 ∧ 0 < y ∧ y < (size : ℤ) - 1

lemma mid_interiorCell {size : ℕ} {x y : ℤ} {d : ℤ × ℤ} (hd : d ∈ carveDirs)
    (hx : interiorCell size x y) (ht : interiorCell size (x + d.1) (y + d.2)) :
    interiorCell size (x + d.1 / 2) (y + d.2 / 2) := by
  obtain ⟨hx1, hx2, hy1, hy2⟩ := hx
  obtain ⟨ht1, ht2, ht3, ht4⟩ := ht
  fin_cases hd <;> constructor <;> norm_num <;> omega

lemma mid_ne_target {x y : ℤ} {d : ℤ × ℤ} (hd : d ∈ carveDirs) :
    ¬(x + d.1 / 2 = x + d.1 ∧ y + d.2 / 2 = y + d.2) := by
  fin_cases hd <;> norm_num <;> omega

lemma setCell_ne {g : Grid} {x y a b : ℤ} {v : ℕ} (h : ¬(a = x ∧ b = y)) :
    setCell g x y v a b = g a b := by
  unfold setCell
  rw [if_neg h]

lemma carveFold_outside (size : ℕ) (rec : ℤ → ℤ → Grid → Grid)
    (Hrec : ∀ x y g, interiorCell size x y →
      ∀ a b, ¬interiorCell size a b → rec x y g a b = g a b) :
    ∀ (dirs : List (ℤ × ℤ)) (x y : ℤ) (g : Grid), interiorCell size x y →
      dirs ⊆ carveDirs →
      ∀ a b, ¬interiorCell size a b → carveFold size rec x y dirs g a b = g a b := by
  intro dirs
  induction dirs with
  | nil => intro x y g _ _ a b _; rfl
  | cons d rest ih =>
    intro x y g hx hsub a b hab
    have hdmem : d ∈ carveDirs := hsub (List.mem_cons_self d rest)
    have hrest : rest ⊆ carveDirs := fun e he => hsub (List.mem_cons_of_mem d he)
    rw [carveFold]
    split_ifs with hguard
    · obtain ⟨h1, h2, h3, h4, -⟩ := hguard
      have htint : interiorCell size (x + d.1) (y + d.2) := ⟨h1, h2, h3, h4⟩
      have hmint := mid_interiorCell hdmem hx htint
      rw [ih x y _ hx hrest a b hab, Hrec _ _ _ htint a b hab,
        setCell_ne, setCell_ne]
      · intro hc
        exact hab (hc.1 ▸ hc.2 ▸ hmint)
      · intro hc
        exact hab (hc.1 ▸ hc.2 ▸ htint)
    · exact ih x y g hx hrest a b hab

lemma carveCell_outside (σ : ℤ × ℤ → List (ℤ × ℤ)) (size : ℕ)
    (Hσ : ∀ p, σ p ⊆ carveDirs) :
    ∀ (fuel : ℕ) (x y : ℤ) (g : Grid), interiorCell size x y →
      ∀ a b, ¬interiorCell size a b → carveCell σ size fuel x y g a b = g a b := by
  intro fuel
  induction fuel with
  | zero => intro x y g _ a b _; rfl
  | succ n ih =>
    intro x y g hx a b hab
    exact carveFold_outside size _ (fun x' y' g' hint => ih x' y' g' hint)
      (σ (x, y)) x y g hx (Hσ (x, y)) a b hab

/-- The generated grid only ever holds `1` (initial) or `0` (carved): in
particular no cell of a generated maze is the Goal kind `2`. -/
lemma generateMaze_ne_two (σ : ℤ × ℤ → List (ℤ × ℤ)) (size fuel : ℕ) (a b : ℤ) :
    generateMaze σ size fuel a b ≠ 2 := by
  have hsub : ClearedFrom (fun _ _ => 1) (generateMaze σ size fuel) := by
    unfold generateMaze
    exact clearedFrom_trans
      (clearedFrom_trans
        (clearedFrom_trans (clearedFrom_setCell _ _ _) (carveCell_clearedFrom σ size fuel 1 1 _))
        (clearedFrom_setCell _ _ _))
      (clearedFrom_setCell _ _ _)
  rcases hsub a b with h | h <;> simp [h]

/-- Orthogonal grid adjacency. -/
def AdjacentCell (p q : ℤ × ℤ) : Prop :=
  (q.1 = p.1 + 1 ∧ q.2 = p.2) ∨ (q.1 = p.1 - 1 ∧ q.2 = p.2) ∨
  (q.1 = p.1 ∧ q.2 = p.2 + 1) ∨ (q.1 = p.1 ∧ q.2 = p.2 - 1)

/-- A non-wall cell inside the `size × size` grid. -/
def OpenCell (size : ℕ) (g : Grid) (p : ℤ × ℤ) : Prop :=
  0 ≤ p.1 ∧ p.1 < (size : ℤ) ∧ 0 ≤ p.2 ∧ p.2 < (size : ℤ) ∧ g p.1 p.2 ≠ 1

/-- Reachability from `start` through orthogonally adjacent open (non-wall)
cells of the grid. -/
inductive ReachFrom (size : ℕ) (g : Grid) (start : ℤ × ℤ) : ℤ × ℤ → Prop
  | refl : ReachFrom size g start start
  | step {p q : ℤ × ℤ} : ReachFrom size g start p → AdjacentCell p q →
      OpenCell size g q → ReachFrom size g start q

lemma reachFrom_mono {size : ℕ} {g g' : Grid} (hmono : ClearedFrom g g')
    {s p : ℤ × ℤ} (h : ReachFrom size g s p) : ReachFrom size g' s p := by
  induction h with
  | refl => exact ReachFrom.refl
  | step _ hadj hopen ih =>
    exact ReachFrom.step ih hadj
      ⟨hopen.1, hopen.2.1, hopen.2.2.1, hopen.2.2.2.1,
        hmono.keep_ne_one hopen.2.2.2.2⟩

lemma reachFrom_trans {size : ℕ} {g : Grid} {s p q : ℤ × ℤ}
    (h1 : ReachFrom size g s p) (h2 : ReachFrom size g p q) :
    ReachFrom size g s q := by
  induction h2 with
  | refl => exact h1
  | step _ hadj hopen ih => exact ReachFrom.step ih hadj hopen

lemma interior_open {size : ℕ} {g : Grid} {x y : ℤ}
    (hint : interiorCell size x y) (hne : g x y ≠ 1) : OpenCell size g (x, y) := by
  obtain ⟨h1, h2, h3, h4⟩ := hint
  exact ⟨by omega, by omega, by omega, by omega, hne⟩

/-- Setting a cell to `0` changes only that cell. -/
lemma setCell_changed {g : Grid} {x y a b : ℤ}
    (h : setCell g x y 0 a b ≠ g a b) : a = x ∧ b = y := by
  by_contra hc
  exact h (setCell_ne hc)

/-- Key connectivity invariant of the carve loop: every cell the loop changes
(necessarily clearing it) is reachable from the cell being expanded, inside
the resulting grid. -/
lemma carveFold_reach (size : ℕ) (rec : ℤ → ℤ → Grid → Grid)
    (Hsub : ∀ x y g, ClearedFrom g (rec x y g))
    (Hrec : ∀ x y g, interiorCell size x y →
      ∀ a b, rec x y g a b ≠ g a b → ReachFrom size (rec x y g) (x, y) (a, b)) :
    ∀ (dirs : List (ℤ × ℤ)) (x y : ℤ) (g : Grid), interiorCell size x y →
      dirs ⊆ carveDirs →
      ∀ a b, carveFold size rec x y dirs g a b ≠ g a b →
        ReachFrom size (carveFold size rec x y dirs g) (x, y) (a, b) := by
  intro dirs
  induction dirs with
  | nil =>
    intro x y g _ _ a b hch
    exact absurd rfl hch
  | cons d rest ih =>
    intro x y g hx hsub a b hch
    have hdmem : d ∈ carveDirs := hsub (List.mem_cons_self d rest)
    have hrest : rest ⊆ carveDirs := fun e he => hsub (List.mem_cons_of_mem d he)
    rw [carveFold] at hch ⊢
    split_ifs at hch ⊢ with hguard
    · obtain ⟨h1, h2, h3, h4, htwall⟩ := hguard
      have htint : interiorCell size (x + d.1) (y + d.2) := ⟨h1, h2, h3, h4⟩
      have hmint := mid_interiorCell hdmem hx htint
      set g1 := setCell g (x + d.1 / 2) (y + d.2 / 2) 0 with hg1
      set g2 := setCell g1 (x + d.1) (y + d.2) 0 with hg2
      set g3 := rec (x + d.1) (y + d.2) g2 with hg3
      set gF := carveFold size rec x y rest g3 with hgF
      have hsub12 : ClearedFrom g g2 :=
        clearedFrom_trans (clearedFrom_setCell _ _ _) (clearedFrom_setCell _ _ _)
      have hsub23 : ClearedFrom g2 g3 := Hsub _ _ _
      have hsub3F : ClearedFrom g3 gF := carveFold_clearedFrom size rec Hsub rest x y g3
      -- the connector and the target are both open in the final grid
      have hmid0 : g2 (x + d.1 / 2) (y + d.2 / 2) = 0 := by
        rw [hg2, setCell_ne (mid_ne_target hdmem)]
        rw [hg1]
        unfold setCell
        rw [if_pos ⟨rfl, rfl⟩]
      have htgt0 : g2 (x + d.1) (y + d.2) = 0 := by
        rw [hg2]
        unfold setCell
        rw [if_pos ⟨rfl, rfl⟩]
      have hmidF : gF (x + d.1 / 2) (y + d.2 / 2) = 0 :=
        hsub3F.keep_zero (hsub23.keep_zero hmid0)
      have htgtF : gF (x + d.1) (y + d.2) = 0 :=
        hsub3F.keep_zero (hsub23.keep_zero htgt0)
      have hadj1 : AdjacentCell (x, y) (x + d.1 / 2, y + d.2 / 2) := by
        unfold AdjacentCell
        fin_cases hdmem <;> norm_num <;> omega
      have hadj2 : AdjacentCell (x + d.1 / 2, y + d.2 / 2) (x + d.1, y + d.2) := by
        unfold AdjacentCell
        fin_cases hdmem <;> norm_num <;> omega
      have hRmid : ReachFrom size gF (x, y) (x + d.1 / 2, y + d.2 / 2) :=
        ReachFrom.step ReachFrom.refl hadj1
          (interior_open hmint (by rw [hmidF]; exact zero_ne_one))
      have hRtgt : ReachFrom size gF (x, y) (x + d.1, y + d.2) :=
        ReachFrom.step hRmid hadj2
          (interior_open htint (by rw [htgtF]; exact zero_ne_one))
      by_cases hchF : gF a b ≠ g3 a b
      · exact ih x y g3 hx hrest a b hchF
      · push_neg at hchF
        have hch3 : g3 a b ≠ g a b := by
          rw [← hchF]; exact hch
        by_cases hch23 : g3 a b ≠ g2 a b
        · have hR3 : ReachFrom size g3 (x + d.1, y + d.2) (a, b) :=
            Hrec _ _ _ htint a b hch23
          exact reachFrom_trans hRtgt (reachFrom_mono hsub3F hR3)
        · push_neg at hch23
          have hch2 : g2 a b ≠ g a b := by
            rw [← hch23]; exact hch3
          by_cases hcht : g2 a b ≠ g1 a b
          · obtain ⟨ha, hb⟩ := setCell_changed hcht
            subst ha; subst hb
            exact hRtgt
          · push_neg at hcht
            have hch1 : g1 a b ≠ g a b := by
              rw [← hcht]; exact hch2
            obtain ⟨ha, hb⟩ := setCell_changed hch1
            subst ha; subst hb
            exact hRmid
    · exact ih x y g hx hrest a b hch

lemma carveCell_reach (σ : ℤ × ℤ → List (ℤ × ℤ)) (size : ℕ)
    (Hσ : ∀ p, σ p ⊆ carveDirs) :
    ∀ (fuel : ℕ) (x y : ℤ) (g : Grid), interiorCell size x y →
      ∀ a b, carveCell σ size fuel x y g a b ≠ g a b →
        ReachFrom size (carveCell σ size fuel x y g) (x, y) (a, b) := by
  intro fuel
  induction fuel with
  | zero =>
    intro x y g _ a b hch
    exact absurd rfl hch
  | succ n ih =>
    intro x y g hx a b hch
    exact carveFold_reach size _ (carveCell_clearedFrom σ size n) ih
      (σ (x, y)) x y g hx (Hσ (x, y)) a b hch

/-- Number of Wall cells in the `size × size` grid region — the measure that
bounds the carve recursion (each recursive call strictly decreases it). -/
def wallCount (size : ℕ) (g : Grid) : ℕ :=
  ((Finset.Icc (0:ℤ) ((size:ℤ) - 1) ×ˢ Finset.Icc (0:ℤ) ((size:ℤ) - 1)).filter
    (fun p => g p.1 p.2 = 1)).card

lemma wallCount_le (size : ℕ) (g : Grid) : wallCount size g ≤ size * size := by
  unfold wallCount
  calc ((Finset.Icc (0:ℤ) ((size:ℤ) - 1) ×ˢ Finset.Icc (0:ℤ) ((size:ℤ) - 1)).filter
          (fun p => g p.1 p.2 = 1)).card
      ≤ (Finset.Icc (0:ℤ) ((size:ℤ) - 1) ×ˢ Finset.Icc (0:ℤ) ((size:ℤ) - 1)).card :=
        Finset.card_filter_le _ _
    _ = size * size := by
        rw [Finset.card_product, Int.card_Icc]
        simp

lemma clearedFrom_wallCount_le {size : ℕ} {g g' : Grid} (h : ClearedFrom g g') :
    wallCount size g' ≤ wallCount size g := by
  apply Finset.card_le_card
  intro p hp
  rw [Finset.mem_filter] at hp ⊢
  refine ⟨hp.1, ?_⟩
  rcases h p.1 p.2 with h' | h'
  · rw [← h']; exact hp.2
  · rw [hp.2] at h'; exact absurd h' one_ne_zero

/-- Clearing the carve target (which the guard checked to be an interior Wall)
strictly decreases the wall count, whatever other cell is cleared with it. -/
lemma wallCount_clear_target_lt {size : ℕ} {g : Grid} {mx my nx ny : ℤ}
    (hint : interiorCell size nx ny) (hw : g nx ny = 1) :
    wallCount size (setCell (setCell g mx my 0) nx ny 0) < wallCount size g := by
  obtain ⟨h1, h2, h3, h4⟩ := hint
  have hmem : ((nx, ny) : ℤ × ℤ) ∈
      (Finset.Icc (0:ℤ) ((size:ℤ) - 1) ×ˢ Finset.Icc (0:ℤ) ((size:ℤ) - 1)).filter
        (fun p => g p.1 p.2 = 1) := by
    rw [Finset.mem_filter, Finset.mem_product, Finset.mem_Icc, Finset.mem_Icc]
    exact ⟨⟨⟨by omega, by omega⟩, ⟨by omega, by omega⟩⟩, hw⟩
  have hsubset : (Finset.Icc (0:ℤ) ((size:ℤ) - 1) ×ˢ Finset.Icc (0:ℤ) ((size:ℤ) - 1)).filter
      (fun p => setCell (setCell g mx my 0) nx ny 0 p.1 p.2 = 1) ⊆
      ((Finset.Icc (0:ℤ) ((size:ℤ) - 1) ×ˢ Finset.Icc (0:ℤ) ((size:ℤ) - 1)).filter
        (fun p => g p.1 p.2 = 1)).erase (nx, ny) := by
    intro p hp
    rw [Finset.mem_filter] at hp
    obtain ⟨hpmem, hpval⟩ := hp
    have hpne : p ≠ (nx, ny) := by
      intro hc
      subst hc
      unfold setCell at hpval
      rw [if_pos ⟨rfl, rfl⟩] at hpval
      exact one_ne_zero hpval.symm
    rw [Finset.mem_erase]
    refine ⟨hpne, ?_⟩
    rw [Finset.mem_filter]
    refine ⟨hpmem, ?_⟩
    unfold setCell at hpval
    rw [if_neg (by intro hc; exact hpne (Prod.ext hc.1 hc.2))] at hpval
    split_ifs at hpval with hmid
    all_goals first
      | exact hpval
      | exact absurd hpval (by norm_num)
  calc wallCount size (setCell (setCell g mx my 0) nx ny 0)
      ≤ (((Finset.Icc (0:ℤ) ((size:ℤ) - 1) ×ˢ Finset.Icc (0:ℤ) ((size:ℤ) - 1)).filter
          (fun p => g p.1 p.2 = 1)).erase (nx, ny)).card := Finset.card_le_card hsubset
    _ < wallCount size g := by
        unfold wallCount
        exact Finset.card_erase_lt_of_mem hmem

/-- A cell all of whose valid two-step carve targets are already non-wall:
the recursion has nothing left to do from it. -/
def ExpandedCell (size : ℕ) (g : Grid) (p : ℤ × ℤ) : Prop :=
  ∀ d ∈ carveDirs, interiorCell size (p.1 + d.1) (p.2 + d.2) →
    g (p.1 + d.1) (p.2 + d.2) ≠ 1

lemma expandedCell_mono {size : ℕ} {g g' : Grid} (h : ClearedFrom g g')
    {p : ℤ × ℤ} (he : ExpandedCell size g p) : ExpandedCell size g' p :=
  fun d hd hint => h.keep_ne_one (he d hd hint)

/-- Both coordinates odd — the parity class of every cell the recursion is
called on (the start `(1,1)` and all two-step targets). -/
def bothOdd (p : ℤ × ℤ) : Prop := p.1 % 2 = 1 ∧ p.2 % 2 = 1

lemma target_bothOdd {p : ℤ × ℤ} {d : ℤ × ℤ} (ho : bothOdd p) (hd : d ∈ carveDirs) :
    bothOdd (p.1 + d.1, p.2 + d.2) := by
  obtain ⟨h1, h2⟩ := ho
  fin_cases hd <;> exact ⟨by omega, by omega⟩

lemma mid_not_bothOdd {x y : ℤ} {d : ℤ × ℤ} (ho : bothOdd (x, y))
    (hd : d ∈ carveDirs) : ¬bothOdd (x + d.1 / 2, y + d.2 / 2) := by
  obtain ⟨h1, h2⟩ := ho
  fin_cases hd <;> (intro hc; obtain ⟨hc1, hc2⟩ := hc; norm_num at hc1 hc2 <;> omega)

/-- Local progress of the carve loop: after the loop has walked its direction
list, every valid interior target of a listed direction is non-wall (it was
either already carved, or the loop carved it). -/
lemma carveFold_expands (size : ℕ) (rec : ℤ → ℤ → Grid → Grid)
    (Hsub : ∀ x y g, ClearedFrom g (rec x y g)) :
    ∀ (dirs : List (ℤ × ℤ)) (x y : ℤ) (g : Grid), ∀ d ∈ dirs,
      interiorCell size (x + d.1) (y + d.2) →
      carveFold size rec x y dirs g (x + d.1) (y + d.2) ≠ 1 := by
  intro dirs
  induction dirs with
  | nil => intro x y g d hd; exact absurd hd (List.not_mem_nil d)
  | cons d' rest ih =>
    intro x y g d hd hint
    rw [carveFold]
    split_ifs with hguard
    · rcases List.mem_cons.mp hd with heq | hmem
      · subst heq
        have h0 : (setCell (setCell g (x + d.1 / 2) (y + d.2 / 2) 0) (x + d.1) (y + d.2) 0)
            (x + d.1) (y + d.2) = 0 := by
          unfold setCell
          rw [if_pos ⟨rfl, rfl⟩]
        have h3 := (Hsub (x + d.1) (y + d.2) _).keep_zero h0
        have hF := (carveFold_clearedFrom size rec Hsub rest x y _).keep_zero h3
        rw [hF]
        exact zero_ne_one
      · exact ih x y _ d hmem hint
    · rcases List.mem_cons.mp hd with heq | hmem
      · subst heq
        have hne : g (x + d.1) (y + d.2) ≠ 1 := by
          intro hc
          obtain ⟨hi1, hi2, hi3, hi4⟩ := hint
          exact hguard ⟨hi1, hi2, hi3, hi4, hc⟩
        exact (carveFold_clearedFrom size rec Hsub rest x y g).keep_ne_one hne
      · exact ih x y g d hmem hint

/-- Completeness invariant of the carve loop: with enough fuel for the
recursive calls, every both-odd cell the loop carves ends up fully expanded
(all its valid targets are non-wall). -/
lemma carveFold_completes (size : ℕ) (rec : ℤ → ℤ → Grid → Grid) (F : ℕ)
    (Hsub : ∀ x y g, ClearedFrom g (rec x y g))
    (Hrec : ∀ x' y' g', interiorCell size x' y' → bothOdd (x', y') →
      wallCount size g' < F →
      (∀ a b, rec x' y' g' a b ≠ g' a b → bothOdd (a, b) →
        ExpandedCell size (rec x' y' g') (a, b)) ∧
      ExpandedCell size (rec x' y' g') (x', y')) :
    ∀ (dirs : List (ℤ × ℤ)) (x y : ℤ) (g : Grid), interiorCell size x y →
      bothOdd (x, y) → dirs ⊆ carveDirs → wallCount size g ≤ F →
      ∀ a b, carveFold size rec x y dirs g a b ≠ g a b → bothOdd (a, b) →
        ExpandedCell size (carveFold size rec x y dirs g) (a, b) := by
  intro dirs
  induction dirs with
  | nil =>
    intro x y g _ _ _ _ a b hch
    exact absurd rfl hch
  | cons d rest ih =>
    intro x y g hx ho hsub hwc a b hch hodd
    have hdmem : d ∈ carveDirs := hsub (List.mem_cons_self d rest)
    have hrest : rest ⊆ carveDirs := fun e he => hsub (List.mem_cons_of_mem d he)
    rw [carveFold] at hch ⊢
    split_ifs at hch ⊢ with hguard
    · obtain ⟨h1, h2, h3, h4, htwall⟩ := hguard
      have htint : interiorCell size (x + d.1) (y + d.2) := ⟨h1, h2, h3, h4⟩
      set g2 := setCell (setCell g (x + d.1 / 2) (y + d.2 / 2) 0) (x + d.1) (y + d.2) 0
        with hg2
      set g3 := rec (x + d.1) (y + d.2) g2 with hg3
      have hw2 : wallCount size g2 < F :=
        lt_of_lt_of_le (wallCount_clear_target_lt htint htwall) hwc
      have hodd_t : bothOdd (x + d.1, y + d.2) := target_bothOdd ho hdmem
      obtain ⟨B3, A3⟩ := Hrec (x + d.1) (y + d.2) g2 htint hodd_t hw2
      have hw3 : wallCount size g3 ≤ F :=
        le_trans (clearedFrom_wallCount_le (Hsub _ _ _)) hw2.le
      have hsub3F : ClearedFrom g3 (carveFold size rec x y rest g3) :=
        carveFold_clearedFrom size rec Hsub rest x y g3
      by_cases hchF : carveFold size rec x y rest g3 a b ≠ g3 a b
      · exact ih x y g3 hx ho hrest hw3 a b hchF hodd
      · push_neg at hchF
        have hch3 : g3 a b ≠ g a b := by rw [← hchF]; exact hch
        by_cases hch23 : g3 a b ≠ g2 a b
        · exact expandedCell_mono hsub3F (B3 a b hch23 hodd)
        · push_neg at hch23
          have hch2 : g2 a b ≠ g a b := by rw [← hch23]; exact hch3
          by_cases hcht : g2 a b ≠ (setCell g (x + d.1 / 2) (y + d.2 / 2) 0) a b
          · obtain ⟨ha, hb⟩ := setCell_changed hcht
            subst ha; subst hb
            exact expandedCell_mono hsub3F A3
          · push_neg at hcht
            have hch1 : (setCell g (x + d.1 / 2) (y + d.2 / 2) 0) a b ≠ g a b := by
              rw [← hcht]; exact hch2
            obtain ⟨ha, hb⟩ := setCell_changed hch1
            subst ha; subst hb
            exact absurd hodd (mid_not_bothOdd ho hdmem)
    · exact ih x y g hx ho hrest hwc a b hch hodd

/-- Completeness of the recursive carve: with fuel above the wall count, every
both-odd cell it carves — and the cell it starts from — is fully expanded in
the result. -/
lemma carveCell_completes (σ : ℤ × ℤ → List (ℤ × ℤ)) (size : ℕ)
    (Hσ1 : ∀ p, σ p ⊆ carveDirs) (Hσ2 : ∀ p, carveDirs ⊆ σ p) :
    ∀ (fuel : ℕ) (x y : ℤ) (g : Grid), interiorCell size x y → bothOdd (x, y) →
      wallCount size g < fuel →
      (∀ a b, carveCell σ size fuel x y g a b ≠ g a b → bothOdd (a, b) →
        ExpandedCell size (carveCell σ size fuel x y g) (a, b)) ∧
      ExpandedCell size (carveCell σ size fuel x y g) (x, y) := by
  intro fuel
  induction fuel with
  | zero => intro x y g _ _ hw; omega
  | succ n ih =>
    intro x y g hx ho hw
    constructor
    · intro a b hch hodd
      exact carveFold_completes size _ n (carveCell_clearedFrom σ size n) ih
        (σ (x, y)) x y g hx ho (Hσ1 _) (by omega) a b hch hodd
    · intro d hd hint
      exact carveFold_expands size _ (carveCell_clearedFrom σ size n)
        (σ (x, y)) x y g d (Hσ2 _ hd) hint

/-- The carve recursion stabilises: any two fuels above the current wall count
compute the same grid.  Together with `wallCount_clear_target_lt` this is the
termination argument of the source recursion: it only ever recurses into a
strictly-uncarved interior cell, clears it at once, and the number of uncarved
cells is bounded by the grid area. -/
lemma carveCell_stable (σ : ℤ × ℤ → List (ℤ × ℤ)) (size : ℕ) :
    ∀ (f₁ f₂ : ℕ) (x y : ℤ) (g : Grid), wallCount size g < f₁ →
      wallCount size g < f₂ →
      carveCell σ size f₁ x y g = carveCell σ size f₂ x y g := by
  intro f₁
  induction f₁ with
  | zero => intro f₂ x y g h₁ h₂; omega
  | succ n ih =>
    intro f₂ x y g h₁ h₂
    obtain ⟨m, rfl⟩ : ∃ m, f₂ = m + 1 := ⟨f₂ - 1, by omega⟩
    show carveFold size (carveCell σ size n) x y (σ (x, y)) g =
      carveFold size (carveCell σ size m) x y (σ (x, y)) g
    have aux : ∀ (dirs : List (ℤ × ℤ)) (g' : Grid),
        wallCount size g' ≤ wallCount size g →
        carveFold size (carveCell σ size n) x y dirs g' =
        carveFold size (carveCell σ size m) x y dirs g' := by
      intro dirs
      induction dirs with
      | nil => intro g' _; rfl
      | cons d rest ihd =>
        intro g' hle
        rw [carveFold, carveFold]
        split_ifs with hguard
        · obtain ⟨hh1, hh2, hh3, hh4, hw⟩ := hguard
          set g2 := setCell (setCell g' (x + d.1 / 2) (y + d.2 / 2) 0)
            (x + d.1) (y + d.2) 0 with hg2
          have hlt : wallCount size g2 < wallCount size g' :=
            wallCount_clear_target_lt ⟨hh1, hh2, hh3, hh4⟩ hw
          have heq : carveCell σ size n (x + d.1) (y + d.2) g2 =
              carveCell σ size m (x + d.1) (y + d.2) g2 :=
            ih m (x + d.1) (y + d.2) g2 (by omega) (by omega)
          rw [← heq]
          have hX : wallCount size (carveCell σ size n (x + d.1) (y + d.2) g2) ≤
              wallCount size g :=
            le_trans (clearedFrom_wallCount_le (carveCell_clearedFrom σ size n _ _ _))
              (by omega)
          exact ihd _ hX
        · exact ihd g' hle
    exact aux (σ (x, y)) g le_rfl

/-- Claim C8: the recursive carve terminates on every square grid size.  With
any fuel above the grid area the result no longer depends on the fuel (the
recursion has reached its fixpoint), because each recursive call is made only
into a cell that is currently a Wall strictly inside the border, that cell is
carved to Floor at once, and the number of uncarved cells — bounded by the
grid area — strictly decreases (second conjunct). -/
theorem carve_terminates (σ : ℤ × ℤ → List (ℤ × ℤ)) (size : ℕ) (f₁ f₂ : ℕ)
    (h₁ : size * size < f₁) (h₂ : size * size < f₂) (a b : ℤ)
    (g : Grid) (mx my nx ny : ℤ) (hint : interiorCell size nx ny)
    (hw : g nx ny = 1) :
    generateMaze σ size f₁ a b = generateMaze σ size f₂ a b ∧
    wallCount size (setCell (setCell g mx my 0) nx ny 0) < wallCount size g := by
  constructor
  · unfold generateMaze
    have h := carveCell_stable σ size f₁ f₂ 1 1 (setCell (fun _ _ => 1) 1 1 0)
      (lt_of_le_of_lt (wallCount_le size _) h₁)
      (lt_of_le_of_lt (wallCount_le size _) h₂)
    rw [h]
  · exact wallCount_clear_target_lt hint hw

/-- Witness for C8 at size 9 with the identity shuffle and fuels 82 and 100;
the decrease conjunct is instantiated on the all-Wall grid at the first carve
step `(1,1) → (3,1)`. -/
theorem carve_terminates_witness :
    generateMaze (fun _ => carveDirs) 9 82 1 1 =
      generateMaze (fun _ => carveDirs) 9 100 1 1 ∧
    wallCount 9 (setCell (setCell (fun _ _ => 1) 2 1 0) 3 1 0) <
      wallCount 9 (fun _ _ => 1) :=
  carve_terminates (fun _ => carveDirs) 9 82 100 (by decide) (by decide) 1 1
    (fun _ _ => 1) 2 1 3 1 (by constructor <;> norm_num) rfl

lemma setCell_same {g : Grid} {x y : ℤ} (h : g x y = 0) (a b : ℤ) :
    setCell g x y 0 a b = g a b := by
  unfold setCell
  split_ifs with hc
  · obtain ⟨rfl, rfl⟩ := hc
    exact h.symm
  · rfl

/-- Claim C4: for every output of the randomized recursive carve generator at
the size the game uses (`MAZE_SIZE = 9`), regardless of the shuffle outcomes
(any permutation of the direction list at each cell) and for any sufficient
fuel, every non-wall cell is reachable from the start cell `(1,1)` through
orthogonally adjacent non-wall cells: the carved maze has no isolated
regions. -/
theorem carved_maze_connected (σ : ℤ × ℤ → List (ℤ × ℤ))
    (Hσ : ∀ p, List.Perm (σ p) carveDirs) (fuel : ℕ) (hfuel : 82 ≤ fuel)
    (pa pb : ℤ) (hbx : 0 ≤ pa) (hbx2 : pa < 9) (hby : 0 ≤ pb) (hby2 : pb < 9)
    (hopen : generateMaze σ 9 fuel pa pb ≠ 1) :
    ReachFrom 9 (generateMaze σ 9 fuel) (1, 1) (pa, pb) := by
  have Hσ1 : ∀ q, σ q ⊆ carveDirs := fun q => (Hσ q).subset
  have Hσ2 : ∀ q, carveDirs ⊆ σ q := fun q => (Hσ q).symm.subset
  set gA : Grid := setCell (fun _ _ => 1) 1 1 0 with hgA
  set gB : Grid := carveCell σ 9 fuel 1 1 gA with hgB
  have hint11 : interiorCell 9 1 1 := by constructor <;> norm_num
  have hodd11 : bothOdd (1, 1) := by constructor <;> norm_num
  have hwA : wallCount 9 gA < fuel := by
    have := wallCount_le 9 gA
    omega
  obtain ⟨hBexp, hAexp⟩ :=
    carveCell_completes σ 9 Hσ1 Hσ2 fuel 1 1 gA hint11 hodd11 hwA
  have hA0 : gA 1 1 = 0 := by
    rw [hgA]
    unfold setCell
    rw [if_pos ⟨rfl, rfl⟩]
  have hclAB : ClearedFrom gA gB := carveCell_clearedFrom σ 9 fuel 1 1 gA
  have hB0 : gB 1 1 = 0 := hclAB.keep_zero hA0
  have hgAw : ∀ a b : ℤ, ¬(a = 1 ∧ b = 1) → gA a b = 1 := by
    intro a b h
    rw [hgA]
    exact setCell_ne h
  have hexp : ∀ a b : ℤ, bothOdd (a, b) → gB a b ≠ 1 →
      ExpandedCell 9 gB (a, b) := by
    intro a b ho hne
    by_cases h11 : a = 1 ∧ b = 1
    · obtain ⟨rfl, rfl⟩ := h11
      exact hAexp
    · have hch : gB a b ≠ gA a b := by
        rw [hgAw a b h11]
        exact hne
      exact hBexp a b hch ho
  have hstep : ∀ a b : ℤ, ∀ d ∈ carveDirs, bothOdd (a, b) → gB a b ≠ 1 →
      interiorCell 9 (a + d.1) (b + d.2) → gB (a + d.1) (b + d.2) ≠ 1 :=
    fun a b d hd ho hne hint => hexp a b ho hne d hd hint
  have h11ne : gB 1 1 ≠ 1 := by rw [hB0]; exact zero_ne_one
  have hmem20 : ((2, 0) : ℤ × ℤ) ∈ carveDirs := by norm_num [carveDirs]
  have hmem02 : ((0, 2) : ℤ × ℤ) ∈ carveDirs := by norm_num [carveDirs]
  have h31 : gB 3 1 ≠ 1 := by
    have := hstep 1 1 (2, 0) hmem20 (by constructor <;> norm_num) h11ne
      (by constructor <;> norm_num)
    norm_num at this
    exact this
  have h51 : gB 5 1 ≠ 1 := by
    have := hstep 3 1 (2, 0) hmem20 (by constructor <;> norm_num) h31
      (by constructor <;> norm_num)
    norm_num at this
    exact this
  have h71 : gB 7 1 ≠ 1 := by
    have := hstep 5 1 (2, 0) hmem20 (by constructor <;> norm_num) h51
      (by constructor <;> norm_num)
    norm_num at this
    exact this
  have h73 : gB 7 3 ≠ 1 := by
    have := hstep 7 1 (0, 2) hmem02 (by constructor <;> norm_num) h71
      (by constructor <;> norm_num)
    norm_num at this
    exact this
  have h75 : gB 7 5 ≠ 1 := by
    have := hstep 7 3 (0, 2) hmem02 (by constructor <;> norm_num) h73
      (by constructor <;> norm_num)
    norm_num at this
    exact this
  have h77 : gB 7 7 ≠ 1 := by
    have := hstep 7 5 (0, 2) hmem02 (by constructor <;> norm_num) h75
      (by constructor <;> norm_num)
    norm_num at this
    exact this
  have h77z : gB 7 7 = 0 := by
    rcases hclAB 7 7 with h | h
    · rw [hgAw 7 7 (by norm_num)] at h
      exact absurd h h77
    · exact h
  have hpt : ∀ a b : ℤ, generateMaze σ 9 fuel a b = gB a b := by
    intro a b
    show setCell (setCell gB 1 1 0) (((9:ℕ) : ℤ) - 2) (((9:ℕ) : ℤ) - 2) 0 a b = gB a b
    have h92 : (((9:ℕ) : ℤ) - 2) = 7 := by norm_num
    rw [h92]
    have hinner : (setCell gB 1 1 0) 7 7 = 0 := by
      rw [setCell_ne (by norm_num)]
      exact h77z
    rw [setCell_same hinner, setCell_same hB0]
  have hclBG : ClearedFrom gB (generateMaze σ 9 fuel) :=
    fun a b => Or.inl (hpt a b)
  have hBopen : gB pa pb ≠ 1 := by
    rw [← hpt pa pb]
    exact hopen
  by_cases hch : gB pa pb ≠ gA pa pb
  · have hR := carveCell_reach σ 9 Hσ1 fuel 1 1 gA hint11 pa pb hch
    exact reachFrom_mono hclBG hR
  · push_neg at hch
    by_cases hp11 : pa = 1 ∧ pb = 1
    · obtain ⟨rfl, rfl⟩ := hp11
      exact ReachFrom.refl
    · rw [hch, hgAw pa pb hp11] at hBopen
      exact absurd rfl hBopen

/-- Witness for C4: in the identity-shuffle maze at fuel 82, the start cell
itself is non-wall (it is force-cleared) and reachable. -/
theorem carved_maze_connected_witness :
    generateMaze (fun _ => carveDirs) 9 82 1 1 ≠ 1 ∧
    ReachFrom 9 (generateMaze (fun _ => carveDirs) 9 82) (1, 1) (1, 1) := by
  have hne : generateMaze (fun _ => carveDirs) 9 82 1 1 ≠ 1 := by
    show setCell (setCell _ 1 1 0) (((9:ℕ) : ℤ) - 2) (((9:ℕ) : ℤ) - 2) 0 1 1 ≠ 1
    unfold setCell
    norm_num
  exact ⟨hne, carved_maze_connected (fun _ => carveDirs)
    (fun _ => List.Perm.refl _) 82 (by norm_num) 1 1 (by norm_num) (by norm_num)
    (by norm_num) (by norm_num) hne⟩

/-- Counterexample to claim C5 as stated: the randomized generator's output is
a maze the game plays on, yet it contains no cell of the Goal kind at all
(shown here for the identity shuffle at fuel 100), so "exactly one cell in the
grid is the Goal kind" fails for it.  In that variant the goal is a separate
scene-graph marker placed at `(size-2, size-2)`, not a grid-cell kind. -/
theorem generated_maze_no_goal :
    ¬ ∃ x y : ℤ, 0 ≤ x ∧ x < 9 ∧ 0 ≤ y ∧ y < 9 ∧
      generateMaze (fun _ => carveDirs) 9 100 x y = 2 := by
  rintro ⟨x, y, -, -, -, -, h2⟩
  exact generateMaze_ne_two _ 9 100 x y h2

/-- Claim C5 (amended): every maze the game plays on has an all-Wall outer
border; each of the two hard-coded layouts has exactly one Goal cell; the
randomized generator's outputs (at the size 9 the game uses) keep the all-Wall
border but contain no Goal-kind cell. -/
theorem border_wall_goal_unique :
    (∀ x : ℕ, x < 9 → ∀ y : ℕ, y < 9 → (x = 0 ∨ x = 8 ∨ y = 0 ∨ y = 8) →
      cellAt MAZE_LAYOUT9 x y = 1) ∧
    (cellAt MAZE_LAYOUT9 7 7 = 2 ∧
      ∀ x : ℕ, x < 9 → ∀ y : ℕ, y < 9 → cellAt MAZE_LAYOUT9 x y = 2 →
        x = 7 ∧ y = 7) ∧
    (∀ x : ℕ, x < 11 → ∀ y : ℕ, y < 11 → (x = 0 ∨ x = 10 ∨ y = 0 ∨ y = 10) →
      cellAt MAZE_LAYOUT11 x y = 1) ∧
    (cellAt MAZE_LAYOUT11 9 9 = 2 ∧
      ∀ x : ℕ, x < 11 → ∀ y : ℕ, y < 11 → cellAt MAZE_LAYOUT11 x y = 2 →
        x = 9 ∧ y = 9) ∧
    (∀ σ : ℤ × ℤ → List (ℤ × ℤ), (∀ p, List.Perm (σ p) carveDirs) →
      ∀ fuel : ℕ, ∀ x y : ℤ, 0 ≤ x → x < 9 → 0 ≤ y → y < 9 →
        (x = 0 ∨ x = 8 ∨ y = 0 ∨ y = 8) → generateMaze σ 9 fuel x y = 1) ∧
    (∀ σ : ℤ × ℤ → List (ℤ × ℤ), ∀ fuel : ℕ, ∀ x y : ℤ,
      generateMaze σ 9 fuel x y ≠ 2) := by
  refine ⟨by decide, ⟨by decide, by decide⟩, by decide, ⟨by decide, by decide⟩,
    ?_, ?_⟩
  · intro σ Hσ fuel x y hx0 hx9 hy0 hy9 hbord
    have hnotint : ¬interiorCell 9 x y := by
      unfold interiorCell
      push_cast
      omega
    have h1 : ¬(x = 1 ∧ y = 1) := by omega
    have h7 : ¬(x = ((9:ℕ) : ℤ) - 2 ∧ y = ((9:ℕ) : ℤ) - 2) := by
      push_cast
      omega
    show setCell (setCell _ 1 1 0) (((9:ℕ) : ℤ) - 2) (((9:ℕ) : ℤ) - 2) 0 x y = 1
    rw [setCell_ne h7, setCell_ne h1]
    rw [carveCell_outside σ 9 (fun p => (Hσ p).subset) fuel 1 1 _
      (by constructor <;> norm_num) x y hnotint]
    exact setCell_ne h1
  · intro σ fuel x y
    exact generateMaze_ne_two σ 9 fuel x y

/-- Witness for C5 (amended): the generated-maze conjuncts instantiated at a
border cell `(0, 5)` and at the interior cell `(3, 3)`. -/
theorem border_wall_goal_unique_witness :
    generateMaze (fun _ => carveDirs) 9 50 0 5 = 1 ∧
    generateMaze (fun _ => carveDirs) 9 50 3 3 ≠ 2 :=
  ⟨border_wall_goal_unique.2.2.2.2.1 (fun _ => carveDirs)
      (fun _ => List.Perm.refl _) 50 0 5 (by norm_num) (by norm_num)
      (by norm_num) (by norm_num) (Or.inl rfl),
    border_wall_goal_unique.2.2.2.2.2 (fun _ => carveDirs) 50 3 3⟩
